import Mathlib

/-!
# Verification of the hyperfusion pricing tool core

A shallow embedding of `backend/app/main.py`: the numeric/boolean coercion
helpers, the `DataStore` refresh and parsing logic, and the quote engine
(`_resolve_uplifts`, `_calculate_sku_quote`, and the use-case branch of the
`/quote` handler).  Python floats are modelled as rationals (`ℚ`), Python
dicts as insertion-ordered association lists, and exceptions as `Except`.
-/

namespace Pricing

/-- A CSV row as produced by `_fetch_csv`: an ordered mapping from (stripped)
column header to (stripped) cell text, modelling a Python dict's
insertion-ordered key/value pairs. -/
abbrev Row := List (String × String)

/-- First-match association-list lookup, modelling Python dict indexing /
`dict.get` (keys in a Python dict are unique, so first match is the match). -/
def alookup {β : Type} (k : String) : List (String × β) → Option β
  | [] => none
  | (k2, v) :: rest => if k2 = k then some v else alookup k rest

/-- Python dict assignment `d[k] = v`: an existing key keeps its position and
gets the new value; a new key is appended at the end.  (Association lists
built from `[]` through this function never hold a key twice, matching a
Python dict.) -/
def alistInsert {β : Type} (k : String) (v : β) : List (String × β) → List (String × β)
  | [] => [(k, v)]
  | (k2, w) :: rest => if k2 = k then (k, v) :: rest else (k2, w) :: alistInsert k v rest

/-- Python `str.strip()`: drop leading and trailing whitespace characters. -/
def stripChars (cs : List Char) : List Char :=
  ((cs.dropWhile Char.isWhitespace).reverse.dropWhile Char.isWhitespace).reverse

/-- `str.strip()` on a `String`. -/
def pyStrip (s : String) : String :=
  String.mk (stripChars s.toList)

/-- `DataStore._parse_bool`: `value.strip().lower() in {"true", "1", "yes", "y"}`. -/
def parse_bool (value : String) : Bool :=
  let s := String.mk ((stripChars value.toList).map Char.toLower)
  (["true", "1", "yes", "y"] : List String).contains s

/-- Decimal digit string to natural number, most significant digit first. -/
def charsToNat (cs : List Char) : Nat :=
  cs.foldl (fun n c => 10 * n + (c.toNat - 48)) 0

/-- Models the Python builtin `float(text)` for the plain decimal literals this
repository's data uses: surrounding whitespace, an optional sign, an integer
part and an optional fractional part.  Exponent notation, underscores and
inf/nan are outside the scope of the claims and are mapped to a parse failure. -/
def pythonFloat (cs0 : List Char) : Option ℚ :=
  let cs := stripChars cs0
  let signAndRest : ℚ × List Char :=
    match cs with
    | '-' :: t => ((-1 : ℚ), t)
    | '+' :: t => ((1 : ℚ), t)
    | t => ((1 : ℚ), t)
  let sign := signAndRest.1
  let rest := signAndRest.2
  let intPart := rest.takeWhile Char.isDigit
  let rest2 := rest.drop intPart.length
  match rest2 with
  | [] => if intPart.isEmpty then none else some (sign * (charsToNat intPart : ℚ))
  | '.' :: frac =>
    if frac.all Char.isDigit ∧ ¬(intPart.isEmpty ∧ frac.isEmpty) then
      some (sign * ((charsToNat intPart : ℚ) + (charsToNat frac : ℚ) / (10 : ℚ) ^ frac.length))
    else
      none
  | _ => none

/-- `DataStore._parse_float`: strip surrounding whitespace, delete every
`,`, `$` and `%` character (Python's `str.replace(c, "")` deletes all
occurrences), return `0.0` for the empty result, else parse as a number. -/
def parse_float (value : String) : Option ℚ :=
  let cleaned :=
    (stripChars value.toList).filter (fun c => !(c == ',') && !(c == '$') && !(c == '%'))
  if cleaned.isEmpty then some 0 else pythonFloat cleaned

/-- The `SKU` dataclass. -/
structure SKU where
  sku_code : String
  name : String
  unit_label : String
  base_unit_price : ℚ
  unit : ℚ
  deriving DecidableEq, Repr

/-- The `VolumeDiscount` dataclass. -/
structure VolumeDiscount where
  min_units : ℚ
  discount_decimal : ℚ
  deriving DecidableEq, Repr

/-- The `Uplift` dataclass. -/
structure Uplift where
  uplift_name : String
  percent_decimal : ℚ
  enabled : Bool
  deriving DecidableEq, Repr

/-- The mutable fields of `DataStore`: the five snapshot fields plus the
last-refresh timestamp (the asyncio lock is part of the scheduling model, not
of the data state). -/
structure DataStoreState where
  skus : List (String × SKU)
  volume_discounts : List VolumeDiscount
  uplifts : List (String × Uplift)
  use_case_mappings : List (String × List (String × ℚ))
  use_cases : List String
  last_refresh_utc : Option ℚ
  deriving DecidableEq, Repr

/-- The failure kinds a refresh can hit (§7 of the spec): missing
configuration, fetch failure, a missing expected column, or a non-numeric
cell where a number was expected. -/
inductive RefreshError where
  | config
  | fetchFail
  | schema (column : String)
  | parse
  deriving DecidableEq, Repr

/-- Required column lookup `row[key]`: a missing column is Python's
`KeyError`, surfaced as a Schema error. -/
def rowGetE (row : Row) (key : String) : Except RefreshError String :=
  match alookup key row with
  | some v => Except.ok v
  | none => Except.error (RefreshError.schema key)

/-- `_parse_float` in a context where its `ValueError` aborts the refresh. -/
def parseFloatE (s : String) : Except RefreshError ℚ :=
  match parse_float s with
  | some q => Except.ok q
  | none => Except.error RefreshError.parse

/-- The price-row loop of `refresh_once`: build `parsed_skus` as a dict keyed
by SKU code, in row order (later duplicate codes overwrite in place). -/
def parseSkuRows (acc : List (String × SKU)) : List Row → Except RefreshError (List (String × SKU))
  | [] => Except.ok acc
  | row :: rest => do
    let code ← rowGetE row "SKU Code"
    let name ← rowGetE row "Name"
    let label ← rowGetE row "Unit Label"
    let price ← parseFloatE (← rowGetE row "Base Unit Price (USD)")
    let unitVal ← parseFloatE (← rowGetE row "Unit")
    parseSkuRows (alistInsert code ⟨code, name, label, price, unitVal⟩ acc) rest

/-- `parsed_skus` of `refresh_once`. -/
def parse_skus (rows : List Row) : Except RefreshError (List (String × SKU)) :=
  parseSkuRows [] rows

/-- Stable ascending insertion by `min_units`: an element is placed before the
first later element whose threshold is not smaller, mirroring Python's stable
`sorted(..., key=lambda d: d.min_units)`. -/
def insertDiscountAsc (x : VolumeDiscount) : List VolumeDiscount → List VolumeDiscount
  | [] => [x]
  | y :: ys => if y.min_units < x.min_units then y :: insertDiscountAsc x ys else x :: y :: ys

/-- Stable sort ascending by `min_units`. -/
def sortDiscountsAsc (l : List VolumeDiscount) : List VolumeDiscount :=
  l.foldr insertDiscountAsc []

/-- The discount-row loop of `refresh_once`, including the final ascending
sort by minimum threshold. -/
def parseDiscountRows : List Row → Except RefreshError (List VolumeDiscount)
  | [] => Except.ok []
  | row :: rest => do
    let minU ← parseFloatE (← rowGetE row "Min Units (Relative)")
    let disc ← parseFloatE (← rowGetE row "Discount % (as decimal)")
    let tail ← parseDiscountRows rest
    Except.ok (⟨minU, disc⟩ :: tail)

/-- `parsed_discounts` of `refresh_once`. -/
def parse_discounts (rows : List Row) : Except RefreshError (List VolumeDiscount) :=
  (parseDiscountRows rows).map sortDiscountsAsc

/-- The uplift-row loop of `refresh_once`: a dict keyed by uplift name. -/
def parseUpliftRows (acc : List (String × Uplift)) : List Row → Except RefreshError (List (String × Uplift))
  | [] => Except.ok acc
  | row :: rest => do
    let name ← rowGetE row "Uplift Name"
    let pct ← parseFloatE (← rowGetE row "Percent (as decimal)")
    let enabledText ← rowGetE row "Enabled (TRUE/FALSE)"
    parseUpliftRows (alistInsert name ⟨name, pct, parse_bool enabledText⟩ acc) rest

/-- `parsed_uplifts` of `refresh_once`. -/
def parse_uplifts (rows : List Row) : Except RefreshError (List (String × Uplift)) :=
  parseUpliftRows [] rows

/-- One retained row of `_parse_use_case_mappings`: the dict comprehension
mapping every use-case column to the numeric coercion of that row's cell
(`row.get(use_case, "")`, so a missing cell reads as the empty string). -/
def parseRowEntry (row : Row) : List String → Except RefreshError (List (String × ℚ))
  | [] => Except.ok []
  | uc :: rest =>
    match parseFloatE ((alookup uc row).getD "") with
    | Except.error e => Except.error e
    | Except.ok v => (parseRowEntry row rest).map (fun es => (uc, v) :: es)

/-- The row loop of `_parse_use_case_mappings`: skip rows whose stripped SKU
Code is empty, otherwise assign the parsed per-use-case entry into the dict. -/
def parseMappingRows (use_cases : List String) (acc : List (String × List (String × ℚ))) :
    List Row → Except RefreshError (List (String × List (String × ℚ)))
  | [] => Except.ok acc
  | row :: rest =>
    let code := pyStrip ((alookup "SKU Code" row).getD "")
    if code = "" then
      parseMappingRows use_cases acc rest
    else
      match parseRowEntry row use_cases with
      | Except.error e => Except.error e
      | Except.ok entry => parseMappingRows use_cases (alistInsert code entry acc) rest

/-- `DataStore._parse_use_case_mappings`: zero rows give an empty mapping and
empty use-case list; otherwise the headers are the first row's keys (the
`h is not None` filter of the source drops the CSV rest-key, which the `Row`
model does not produce) and every header other than "SKU Code" is a use case. -/
def parse_use_case_mappings (rows : List Row) :
    Except RefreshError (List (String × List (String × ℚ)) × List String) :=
  match rows with
  | [] => Except.ok ([], [])
  | first :: _ =>
    let use_cases := (first.map Prod.fst).filter (fun h => h ≠ "SKU Code")
    (parseMappingRows use_cases [] rows).map (fun m => (m, use_cases))

/-- The stripped SKU codes of the rows that `_parse_use_case_mappings`
retains (nonempty after stripping). -/
def retainedCodes (rows : List Row) : List String :=
  (rows.map (fun row => pyStrip ((alookup "SKU Code" row).getD ""))).filter (fun c => c ≠ "")

/-- The environment `refresh_once` runs against: the four configured source
locations (`os.getenv` results, `none` when unset), the tabular fetcher
(`none` models a Fetch error: network failure, timeout or non-2xx), and the
current clock (`time.time()`). -/
structure RefreshEnv where
  pricelist_url : Option String
  volume_url : Option String
  uplifts_url : Option String
  use_case_mappings_url : Option String
  fetch : String → Option (List Row)
  now : ℚ

/-- Python truthiness of an optional string: `None` and `""` are falsy. -/
def envPresent : Option String → Bool
  | none => false
  | some s => s ≠ ""

/-- One fetch through the environment, lifting a failed fetch to a Fetch
error. -/
def fetchE (env : RefreshEnv) (url : Option String) : Except RefreshError (List Row) :=
  match env.fetch (url.getD "") with
  | some rows => Except.ok rows
  | none => Except.error RefreshError.fetchFail

/-- The five parsed data sets a successful refresh produces. -/
structure LoadedData where
  skus : List (String × SKU)
  volume_discounts : List VolumeDiscount
  uplifts : List (String × Uplift)
  use_case_mappings : List (String × List (String × ℚ))
  use_cases : List String
  deriving DecidableEq, Repr

/-- The body of `refresh_once` up to (but excluding) the snapshot assignment:
config check, the four fetches, and all four parses.  Any failure anywhere
aborts the whole load with no partial result. -/
def load_all (env : RefreshEnv) : Except RefreshError LoadedData :=
  if envPresent env.pricelist_url ∧ envPresent env.volume_url ∧
      envPresent env.uplifts_url ∧ envPresent env.use_case_mappings_url then do
    let price_rows ← fetchE env env.pricelist_url
    let volume_rows ← fetchE env env.volume_url
    let uplift_rows ← fetchE env env.uplifts_url
    let use_case_rows ← fetchE env env.use_case_mappings_url
    let skus ← parse_skus price_rows
    let discounts ← parse_discounts volume_rows
    let uplifts ← parse_uplifts uplift_rows
    let mappingsAndCases ← parse_use_case_mappings use_case_rows
    Except.ok ⟨skus, discounts, uplifts, mappingsAndCases.1, mappingsAndCases.2⟩
  else
    Except.error RefreshError.config

/-- `DataStore.refresh_once`: on success the five snapshot fields are
assigned together and the timestamp is set to the current time; on any
failure the exception propagates and no field is assigned. -/
def refresh_once (env : RefreshEnv) (st : DataStoreState) : DataStoreState × Option RefreshError :=
  match load_all env with
  | Except.error e => (st, some e)
  | Except.ok d =>
    (⟨d.skus, d.volume_discounts, d.uplifts, d.use_case_mappings, d.use_cases, some env.now⟩, none)

/-- `REFRESH_SECONDS = 600`. -/
def REFRESH_SECONDS : ℚ := 600

/-- `DataStore.ensure_fresh`: refresh when no refresh has ever completed or
the last one is at least `REFRESH_SECONDS` old, otherwise do nothing. -/
def ensure_fresh (env : RefreshEnv) (st : DataStoreState) : DataStoreState × Option RefreshError :=
  match st.last_refresh_utc with
  | none => refresh_once env st
  | some t => if env.now - t ≥ REFRESH_SECONDS then refresh_once env st else (st, none)

/-- The user-visible quote-engine failures: unknown uplift names (HTTP 400,
listing all missing names), unknown SKU code (HTTP 404), unknown use case
(HTTP 400) and a non-positive hours value (HTTP 400). -/
inductive QuoteError where
  | unknownUplifts (missing : List String)
  | unknownSku (sku_code : String)
  | unknownUseCase (use_case : String)
  | invalidHours
  deriving DecidableEq, Repr

/-- `_resolve_uplifts`: with no list, every enabled uplift (dict value order);
with a list, fail when any name is missing from the uplift dict (reporting the
missing names in input order), else index the dict at every name in order. -/
def resolve_uplifts (st : DataStoreState) (uplift_names : Option (List String)) :
    Except QuoteError (List Uplift) :=
  match uplift_names with
  | none => Except.ok ((st.uplifts.map Prod.snd).filter (fun u => u.enabled))
  | some names =>
    let missing := names.filter (fun n => (alookup n st.uplifts).isNone)
    if missing = [] then
      Except.ok (names.filterMap (fun n => alookup n st.uplifts))
    else
      Except.error (QuoteError.unknownUplifts missing)

/-- The structured breakdown `_calculate_sku_quote` returns.  The source's
dict also echoes `base_unit_price` and `unit_multiplier`, which here are
`sku.base_unit_price` and `sku.unit` of the embedded `sku` field. -/
structure SkuQuoteResult where
  sku : SKU
  quantity_raw : ℚ
  relative_units : ℚ
  base_cost : ℚ
  discount_decimal : ℚ
  discounted_cost : ℚ
  uplift_decimal : ℚ
  final_cost : ℚ
  applied_uplifts : List Uplift
  deriving DecidableEq, Repr

/-- The discount-selection loop of `_calculate_sku_quote`: a running maximum,
updated only by a qualifying tier with a strictly larger discount. -/
def selectDiscount (ds : List VolumeDiscount) (relative_units : ℚ) : ℚ :=
  ds.foldl
    (fun best d =>
      if d.min_units ≤ relative_units ∧ best < d.discount_decimal then d.discount_decimal else best)
    0

/-- `_calculate_sku_quote`. -/
def calculate_sku_quote (st : DataStoreState) (sku_code : String) (quantity : ℚ)
    (uplift_names : Option (List String)) : Except QuoteError SkuQuoteResult :=
  match alookup sku_code st.skus with
  | none => Except.error (QuoteError.unknownSku sku_code)
  | some sku =>
    let relative_units := quantity / sku.unit
    let base_cost := relative_units * sku.base_unit_price
    let discount_decimal := selectDiscount st.volume_discounts relative_units
    let discounted_cost := base_cost * (1 - discount_decimal)
    match resolve_uplifts st uplift_names with
    | Except.error e => Except.error e
    | Except.ok selected =>
      let uplift_decimal := (selected.map (fun u => u.percent_decimal)).sum
      Except.ok
        ⟨sku, quantity, relative_units, base_cost, discount_decimal, discounted_cost,
          uplift_decimal, discounted_cost * (1 + uplift_decimal), selected⟩

/-- One line of the use-case quote breakdown. -/
structure BreakdownLine where
  sku_code : String
  sku_name : String
  unit_label : String
  units_per_hour : ℚ
  units_total : ℚ
  cost_usd : ℚ
  deriving DecidableEq, Repr

/-- Stable descending insertion by `cost_usd`, mirroring Python's stable
`list.sort(key=..., reverse=True)`: an element is placed before the first
later element whose cost is not larger. -/
def insertLineDesc (x : BreakdownLine) : List BreakdownLine → List BreakdownLine
  | [] => [x]
  | y :: ys => if x.cost_usd < y.cost_usd then y :: insertLineDesc x ys else x :: y :: ys

/-- Stable sort descending by `cost_usd`. -/
def sortLinesDesc (l : List BreakdownLine) : List BreakdownLine :=
  l.foldr insertLineDesc []

/-- The result of the use-case branch of the `/quote` handler. -/
structure UseCaseQuoteResult where
  use_case : String
  hours : ℚ
  grand_total_usd : ℚ
  breakdown : List BreakdownLine
  deriving DecidableEq, Repr

/-- The mapping loop of the use-case branch: for each SKU code in the mapping
dict, compute `units_per_hour` (0 when the use case has no entry) and
`units_total`; skip non-positive totals and codes absent from the SKU dict;
otherwise take the SKU quote's final cost as the line cost. -/
def buildLines (st : DataStoreState) (use_case : String) (hours : ℚ)
    (uplift_names : Option (List String)) :
    List (String × List (String × ℚ)) → Except QuoteError (List BreakdownLine)
  | [] => Except.ok []
  | (sku_code, per_use_case) :: rest =>
    let units_per_hour := (alookup use_case per_use_case).getD 0
    let units_total := units_per_hour * hours
    if units_total ≤ 0 then
      buildLines st use_case hours uplift_names rest
    else if (alookup sku_code st.skus).isNone then
      buildLines st use_case hours uplift_names rest
    else
      match calculate_sku_quote st sku_code units_total uplift_names with
      | Except.error e => Except.error e
      | Except.ok sq =>
        (buildLines st use_case hours uplift_names rest).map
          (fun tail =>
            ⟨sku_code, sq.sku.name, sq.sku.unit_label, units_per_hour, units_total,
              sq.final_cost⟩ :: tail)

/-- The `mode == "use_case"` branch of the `/quote` handler: validate the use
case and the hours, build the breakdown lines in mapping order, accumulate
the grand total, and sort the breakdown by cost descending. -/
def quote_use_case (st : DataStoreState) (use_case : String) (hours : ℚ)
    (uplift_names : Option (List String)) : Except QuoteError UseCaseQuoteResult :=
  if use_case ∈ st.use_cases then
    if 0 < hours then
      match buildLines st use_case hours uplift_names st.use_case_mappings with
      | Except.error e => Except.error e
      | Except.ok lines =>
        Except.ok ⟨use_case, hours, (lines.map (fun l => l.cost_usd)).sum, sortLinesDesc lines⟩
    else
      Except.error QuoteError.invalidHours
  else
    Except.error (QuoteError.unknownUseCase use_case)

/-! ## Helper lemmas -/

theorem alookup_alistInsert_self {β : Type} (c : String) (v : β) :
    ∀ l : List (String × β), alookup c (alistInsert c v l) = some v
  | [] => by simp [alistInsert, alookup]
  | (k2, w) :: rest => by
    by_cases hp : k2 = c
    · rw [alistInsert, if_pos hp, alookup, if_pos rfl]
    · rw [alistInsert, if_neg hp, alookup, if_neg hp]
      exact alookup_alistInsert_self c v rest

theorem alookup_alistInsert_ne {β : Type} (k c : String) (hne : k ≠ c) (v : β) :
    ∀ l : List (String × β), alookup k (alistInsert c v l) = alookup k l
  | [] => by simp [alistInsert, alookup, Ne.symm hne]
  | (k2, w) :: rest => by
    by_cases hp : k2 = c
    · subst hp
      simp [alistInsert, alookup, Ne.symm hne]
    · rw [alistInsert, if_neg hp, alookup, alookup]
      split
      · rfl
      · exact alookup_alistInsert_ne k c hne v rest

/-! ## C9: parse_bool -/

/-- C9 as stated is false on the code: `_parse_bool` strips surrounding
whitespace before matching, so `" true"` (leading space) returns `true` even
though `" true"` is not itself a case-insensitive match for any of
`"true"`, `"1"`, `"yes"`, `"y"`. -/
theorem parse_bool_untrimmed_counterexample :
    parse_bool " true" = true ∧
      String.mk ((" true").toList.map Char.toLower) ∉ (["true", "1", "yes", "y"] : List String) := by
  decide

/-- C9 (amended): for every input string, `parse_bool` returns `true` if and
only if the string, after stripping surrounding whitespace, is a
case-insensitive match for one of `"true"`, `"1"`, `"yes"`, `"y"`; every
other input returns `false`, and the function is total (it never fails). -/
theorem parse_bool_spec (v : String) :
    parse_bool v = true ↔
      String.mk ((stripChars v.toList).map Char.toLower) ∈ (["true", "1", "yes", "y"] : List String) := by
  rw [parse_bool]
  exact List.elem_iff

/-! ## C6: ensure_fresh staleness policy -/

/-- The staleness condition as the spec words it: no refresh has ever
completed, or at least 600 time units have elapsed since the last one. -/
def staleSpec (st : DataStoreState) (now : ℚ) : Prop :=
  st.last_refresh_utc = none ∨ ∃ t, st.last_refresh_utc = some t ∧ (600 : ℚ) ≤ now - t

/-- C6: `ensure_fresh` performs the refresh exactly when no refresh has ever
completed or the elapsed time since the last refresh is at least 600 time
units; otherwise it is a no-op that leaves the state unchanged and reports no
error. -/
theorem ensure_fresh_policy (env : RefreshEnv) (st : DataStoreState) :
    (staleSpec st env.now → ensure_fresh env st = refresh_once env st) ∧
    (¬staleSpec st env.now → ensure_fresh env st = (st, none)) := by
  constructor
  · intro hs
    cases hlast : st.last_refresh_utc with
    | none => simp only [ensure_fresh, hlast]
    | some t =>
      have helapsed : env.now - t ≥ REFRESH_SECONDS := by
        rcases hs with h | ⟨t2, ht2, he⟩
        · rw [hlast] at h; cases h
        · rw [hlast] at ht2; cases ht2; exact he
      simp only [ensure_fresh, hlast, if_pos helapsed]
  · intro hs
    cases hlast : st.last_refresh_utc with
    | none => exact absurd (Or.inl hlast) hs
    | some t =>
      have hnot : ¬(env.now - t ≥ REFRESH_SECONDS) := fun he => hs (Or.inr ⟨t, hlast, he⟩)
      simp only [ensure_fresh, hlast, if_neg hnot]

/-! ## C5: refresh failure preserves the snapshot -/

/-- C5: whenever `refresh_once` fails for any reason (missing configuration,
fetch failure, schema error or parse error), the five snapshot fields and the
last-refresh timestamp are exactly the ones from before the attempt; and when
it reports no error, the whole load succeeded and all five fields together
with the timestamp are replaced with the loaded data and the current time. -/
theorem refresh_once_atomicity (env : RefreshEnv) (st : DataStoreState) :
    ((refresh_once env st).2.isSome → (refresh_once env st).1 = st) ∧
    ((refresh_once env st).2 = none →
      ∃ d, load_all env = Except.ok d ∧
        (refresh_once env st).1 =
          ⟨d.skus, d.volume_discounts, d.uplifts, d.use_case_mappings, d.use_cases,
            some env.now⟩) := by
  cases hl : load_all env with
  | error e => simp [refresh_once, hl]
  | ok d => simp [refresh_once, hl]

/-! ## C1: discount selection -/

/-- The claim's discount rule, written from the spec's words: among the
tiers whose threshold qualifies, the largest discount fraction; `0` when none
qualify. -/
def specSelectedDiscount (ds : List VolumeDiscount) (ru : ℚ) : ℚ :=
  match (ds.filter (fun d => d.min_units ≤ ru)).map (fun d => d.discount_decimal) with
  | [] => 0
  | q :: qs => qs.foldl max q

theorem selectDiscount_foldl_max (ru : ℚ) :
    ∀ (ds : List VolumeDiscount) (b : ℚ),
      List.foldl
          (fun best d =>
            if d.min_units ≤ ru ∧ best < d.discount_decimal then d.discount_decimal else best)
          b ds
        = List.foldl max b
            ((ds.filter (fun d => d.min_units ≤ ru)).map (fun d => d.discount_decimal))
  | [], b => rfl
  | d :: ds, b => by
    by_cases hq : d.min_units ≤ ru
    · have hstep :
          (if d.min_units ≤ ru ∧ b < d.discount_decimal then d.discount_decimal else b)
            = max b d.discount_decimal := by
        rcases le_or_lt d.discount_decimal b with hle | hlt
        · rw [if_neg (fun hc => absurd hc.2 (not_lt.mpr hle)), max_eq_left hle]
        · rw [if_pos ⟨hq, hlt⟩, max_eq_right hlt.le]
      simp only [List.foldl_cons]
      rw [hstep, List.filter_cons_of_pos (by simpa using hq), List.map_cons, List.foldl_cons]
      exact selectDiscount_foldl_max ru ds (max b d.discount_decimal)
    · simp only [List.foldl_cons]
      rw [if_neg (fun hc : d.min_units ≤ ru ∧ b < d.discount_decimal => hq hc.1),
        List.filter_cons_of_neg (by simpa using hq)]
      exact selectDiscount_foldl_max ru ds b

theorem selectDiscount_eq_spec (ds : List VolumeDiscount) (ru : ℚ)
    (hnn : ∀ d ∈ ds, 0 ≤ d.discount_decimal) :
    selectDiscount ds ru = specSelectedDiscount ds ru := by
  rw [selectDiscount, selectDiscount_foldl_max, specSelectedDiscount]
  cases hml : (ds.filter (fun d => d.min_units ≤ ru)).map (fun d => d.discount_decimal) with
  | nil => rfl
  | cons q qs =>
    rw [List.foldl_cons]
    have hq0 : 0 ≤ q := by
      have hmem : q ∈ (ds.filter (fun d => d.min_units ≤ ru)).map
          (fun d => d.discount_decimal) := by
        rw [hml]; exact List.mem_cons_self q qs
      rcases List.mem_map.mp hmem with ⟨d, hd, hdq⟩
      rcases List.mem_filter.mp hd with ⟨hdds, _⟩
      rw [← hdq]
      exact hnn d hdds
    rw [max_eq_right hq0]

/-- C1: for every discount table (the cache keeps it sorted ascending by
threshold) whose discount fractions are nonnegative (the data model's 0–1
expectation), the discount fraction applied by `calculate_sku_quote` equals
the maximum discount fraction among the `VolumeDiscount` entries whose
`min_units` is at most the computed relative units, and equals `0` when no
entry qualifies. -/
theorem sku_quote_discount_selection (st : DataStoreState) (sku_code : String) (quantity : ℚ)
    (names : Option (List String))
    (hsorted : st.volume_discounts.Pairwise (fun a b => a.min_units ≤ b.min_units))
    (hnn : ∀ d ∈ st.volume_discounts, 0 ≤ d.discount_decimal)
    (sku : SKU) (hsku : alookup sku_code st.skus = some sku)
    (q : SkuQuoteResult) (hq : calculate_sku_quote st sku_code quantity names = Except.ok q) :
    q.discount_decimal = specSelectedDiscount st.volume_discounts (quantity / sku.unit) := by
  rw [calculate_sku_quote] at hq
  rw [hsku] at hq
  cases hres : resolve_uplifts st names with
  | error e => rw [hres] at hq; exact absurd hq (by simp)
  | ok sel =>
    rw [hres] at hq
    simp only [Except.ok.injEq] at hq
    rw [← hq]
    exact selectDiscount_eq_spec st.volume_discounts (quantity / sku.unit) hnn

/-! ## C2: SKU quote arithmetic -/

/-- C2: for every SKU in the current snapshot with nonzero unit size, every
quantity, and every successfully resolved uplift selection,
`calculate_sku_quote` succeeds and returns
`relative_units = quantity / unit`, `base_cost = relative_units *
base_unit_price`, `discounted_cost = base_cost * (1 - discount)`,
`uplift_decimal` the sum of the selected uplift fractions, and
`final_cost = discounted_cost * (1 + uplift_decimal)`. -/
theorem sku_quote_arithmetic (st : DataStoreState) (sku_code : String) (quantity : ℚ)
    (names : Option (List String)) (sku : SKU)
    (hsku : alookup sku_code st.skus = some sku) (hunit : sku.unit ≠ 0)
    (sel : List Uplift) (hsel : resolve_uplifts st names = Except.ok sel) :
    ∃ q, calculate_sku_quote st sku_code quantity names = Except.ok q ∧
      q.relative_units = quantity / sku.unit ∧
      q.base_cost = q.relative_units * sku.base_unit_price ∧
      q.discounted_cost = q.base_cost * (1 - q.discount_decimal) ∧
      q.uplift_decimal = (sel.map (fun u => u.percent_decimal)).sum ∧
      q.final_cost = q.discounted_cost * (1 + q.uplift_decimal) := by
  have hq : calculate_sku_quote st sku_code quantity names =
      Except.ok
        ⟨sku, quantity, quantity / sku.unit, quantity / sku.unit * sku.base_unit_price,
          selectDiscount st.volume_discounts (quantity / sku.unit),
          quantity / sku.unit * sku.base_unit_price *
            (1 - selectDiscount st.volume_discounts (quantity / sku.unit)),
          (sel.map (fun u => u.percent_decimal)).sum,
          quantity / sku.unit * sku.base_unit_price *
              (1 - selectDiscount st.volume_discounts (quantity / sku.unit)) *
            (1 + (sel.map (fun u => u.percent_decimal)).sum),
          sel⟩ := by
    rw [calculate_sku_quote, hsku, hsel]
  exact ⟨_, hq, rfl, rfl, rfl, rfl, rfl⟩

/-! ## C4: resolve_uplifts -/

theorem filterMap_length_of_isSome {α β : Type} (f : α → Option β) :
    ∀ l : List α, (∀ a ∈ l, (f a).isSome) → (l.filterMap f).length = l.length
  | [], _ => rfl
  | a :: l, h => by
    cases hfa : f a with
    | none => exact absurd (h a (List.mem_cons_self a l)) (by simp [hfa])
    | some b =>
      rw [List.filterMap_cons_some hfa]
      simp only [List.length_cons]
      rw [filterMap_length_of_isSome f l (fun x hx => h x (List.mem_cons_of_mem a hx))]

theorem filterMap_get_of_isSome {α β : Type} (f : α → Option β) :
    ∀ (l : List α), (∀ a ∈ l, (f a).isSome) →
      ∀ (i : Nat) (hi : i < l.length) (hj : i < (l.filterMap f).length),
        f (l.get ⟨i, hi⟩) = some ((l.filterMap f).get ⟨i, hj⟩)
  | [], _, i, hi, _ => absurd hi (by simp)
  | a :: l, h, i, hi, hj => by
    cases hfa : f a with
    | none => exact absurd (h a (List.mem_cons_self a l)) (by simp [hfa])
    | some b =>
      cases i with
      | zero => simpa [List.filterMap_cons_some hfa] using hfa
      | succ n =>
        have hj2 : n < (l.filterMap f).length := by
          have hj3 := hj
          rw [List.filterMap_cons_some hfa] at hj3
          simpa using hj3
        have hrec := filterMap_get_of_isSome f l
          (fun x hx => h x (List.mem_cons_of_mem a hx)) n (by simpa using hi) hj2
        simpa [List.filterMap_cons_some hfa] using hrec

/-- C4: with no `names` list, `resolve_uplifts` returns exactly the uplifts
currently flagged enabled; with a list (the empty list included), it fails
with an Unknown-Uplift error listing exactly the provided names absent from
the current uplift set whenever at least one is absent, and otherwise
returns the named uplifts in input order, keeping duplicates and ignoring the
enabled flag. -/
theorem resolve_uplifts_spec (st : DataStoreState) (names : List String) :
    (∃ us, resolve_uplifts st none = Except.ok us ∧
      ∀ u, u ∈ us ↔ ((∃ p ∈ st.uplifts, p.2 = u) ∧ u.enabled = true)) ∧
    ((∃ n ∈ names, alookup n st.uplifts = none) →
      ∃ miss, resolve_uplifts st (some names) = Except.error (QuoteError.unknownUplifts miss) ∧
        miss ≠ [] ∧ ∀ n, n ∈ miss ↔ (n ∈ names ∧ alookup n st.uplifts = none)) ∧
    ((∀ n ∈ names, (alookup n st.uplifts).isSome) →
      ∃ us, resolve_uplifts st (some names) = Except.ok us ∧ us.length = names.length ∧
        ∀ (i : Nat) (hi : i < names.length) (hj : i < us.length),
          alookup (names.get ⟨i, hi⟩) st.uplifts = some (us.get ⟨i, hj⟩)) := by
  refine ⟨⟨_, rfl, ?_⟩, ?_, ?_⟩
  · intro u
    simp [List.mem_filter, List.mem_map]
  · rintro ⟨n, hn, hnone⟩
    have hmem : n ∈ names.filter (fun n => (alookup n st.uplifts).isNone) :=
      List.mem_filter.mpr ⟨hn, by simp [hnone]⟩
    have hne : names.filter (fun n => (alookup n st.uplifts).isNone) ≠ [] := by
      intro hnil
      rw [hnil] at hmem
      cases hmem
    refine ⟨_, ?_, hne, ?_⟩
    · rw [resolve_uplifts]
      simp only [if_neg hne]
    · intro n2
      simp [List.mem_filter, Option.isNone_iff_eq_none]
  · intro hall
    have hmiss : names.filter (fun n => (alookup n st.uplifts).isNone) = [] := by
      rw [List.filter_eq_nil_iff]
      intro a ha hn
      rw [Option.isNone_iff_eq_none] at hn
      have hs := hall a ha
      rw [hn] at hs
      simp at hs
    refine ⟨_, ?_, filterMap_length_of_isSome _ names hall, ?_⟩
    · rw [resolve_uplifts]
      simp only [hmiss, if_pos]
    · exact filterMap_get_of_isSome _ names hall

/-! ## C3: the use-case quote -/

theorem insertLineDesc_perm (x : BreakdownLine) :
    ∀ l : List BreakdownLine, (insertLineDesc x l).Perm (x :: l)
  | [] => List.Perm.refl _
  | y :: ys => by
    rw [insertLineDesc]
    split
    · exact ((insertLineDesc_perm x ys).cons y).trans (List.Perm.swap x y ys)
    · exact List.Perm.refl _

theorem sortLinesDesc_perm : ∀ l : List BreakdownLine, (sortLinesDesc l).Perm l
  | [] => List.Perm.refl _
  | x :: l => by
    rw [sortLinesDesc, List.foldr_cons]
    exact (insertLineDesc_perm x _).trans ((sortLinesDesc_perm l).cons x)

theorem insertLineDesc_sorted (x : BreakdownLine) :
    ∀ l : List BreakdownLine, l.Pairwise (fun a b => b.cost_usd ≤ a.cost_usd) →
      (insertLineDesc x l).Pairwise (fun a b => b.cost_usd ≤ a.cost_usd)
  | [], _ => by simp [insertLineDesc]
  | y :: ys, h => by
    rw [insertLineDesc]
    rw [List.pairwise_cons] at h
    split
    · rename_i hlt
      rw [List.pairwise_cons]
      refine ⟨?_, insertLineDesc_sorted x ys h.2⟩
      intro z hz
      rcases List.mem_cons.mp ((insertLineDesc_perm x ys).mem_iff.mp hz) with rfl | hz2
      · exact le_of_lt hlt
      · exact h.1 z hz2
    · rename_i hnlt
      rw [List.pairwise_cons]
      constructor
      · intro z hz
        rcases List.mem_cons.mp hz with rfl | hz2
        · exact not_lt.mp hnlt
        · exact le_trans (h.1 z hz2) (not_lt.mp hnlt)
      · exact List.pairwise_cons.mpr h

theorem sortLinesDesc_sorted : ∀ l : List BreakdownLine,
    (sortLinesDesc l).Pairwise (fun a b => b.cost_usd ≤ a.cost_usd)
  | [] => List.Pairwise.nil
  | x :: l => by
    rw [sortLinesDesc, List.foldr_cons]
    exact insertLineDesc_sorted x _ (sortLinesDesc_sorted l)

theorem buildLines_sound (st : DataStoreState) (uc : String) (hours : ℚ)
    (names : Option (List String)) :
    ∀ (ms : List (String × List (String × ℚ))) (lines : List BreakdownLine),
      buildLines st uc hours names ms = Except.ok lines →
      ∀ l ∈ lines, ∃ per, (l.sku_code, per) ∈ ms ∧
        l.units_per_hour = (alookup uc per).getD 0 ∧
        l.units_total = l.units_per_hour * hours ∧
        0 < l.units_total ∧
        (alookup l.sku_code st.skus).isSome ∧
        ∃ sq, calculate_sku_quote st l.sku_code l.units_total names = Except.ok sq ∧
          l.cost_usd = sq.final_cost
  | [], lines, h, l, hl => by
    simp only [buildLines, Except.ok.injEq] at h
    subst h
    cases hl
  | (code, per) :: rest, lines, h, l, hl => by
    simp only [buildLines] at h
    by_cases h1 : (alookup uc per).getD 0 * hours ≤ 0
    · rw [if_pos h1] at h
      obtain ⟨per2, hmem, hrest⟩ := buildLines_sound st uc hours names rest lines h l hl
      exact ⟨per2, List.mem_cons_of_mem _ hmem, hrest⟩
    · rw [if_neg h1] at h
      by_cases h2 : (alookup code st.skus).isNone
      · rw [if_pos h2] at h
        obtain ⟨per2, hmem, hrest⟩ := buildLines_sound st uc hours names rest lines h l hl
        exact ⟨per2, List.mem_cons_of_mem _ hmem, hrest⟩
      · rw [if_neg h2] at h
        cases hsq : calculate_sku_quote st code ((alookup uc per).getD 0 * hours) names with
        | error e => rw [hsq] at h; exact absurd h (by simp)
        | ok sq =>
          rw [hsq] at h
          cases hrest : buildLines st uc hours names rest with
          | error e => rw [hrest] at h; simp [Except.map] at h
          | ok tail =>
            rw [hrest] at h
            simp only [Except.map, Except.ok.injEq] at h
            subst h
            rcases List.mem_cons.mp hl with rfl | hl2
            · exact ⟨per, List.mem_cons_self _ _, rfl, rfl, lt_of_not_le h1,
                Option.ne_none_iff_isSome.mp (by simpa using h2), sq, hsq, rfl⟩
            · obtain ⟨per2, hmem, hrest2⟩ :=
                buildLines_sound st uc hours names rest tail hrest l hl2
              exact ⟨per2, List.mem_cons_of_mem _ hmem, hrest2⟩

theorem buildLines_complete (st : DataStoreState) (uc : String) (hours : ℚ)
    (names : Option (List String)) :
    ∀ (ms : List (String × List (String × ℚ))) (lines : List BreakdownLine),
      buildLines st uc hours names ms = Except.ok lines →
      ∀ p ∈ ms, 0 < (alookup uc p.2).getD 0 * hours → (alookup p.1 st.skus).isSome →
        ∃ l ∈ lines, l.sku_code = p.1 ∧ l.units_per_hour = (alookup uc p.2).getD 0 ∧
          l.units_total = (alookup uc p.2).getD 0 * hours
  | [], lines, _, p, hp, _, _ => by cases hp
  | (code, per) :: rest, lines, h, p, hp, hp1, hp2 => by
    simp only [buildLines] at h
    by_cases h1 : (alookup uc per).getD 0 * hours ≤ 0
    · rw [if_pos h1] at h
      rcases List.mem_cons.mp hp with rfl | hp3
      · exact absurd hp1 (not_lt.mpr h1)
      · exact buildLines_complete st uc hours names rest lines h p hp3 hp1 hp2
    · rw [if_neg h1] at h
      by_cases h2 : (alookup code st.skus).isNone
      · rw [if_pos h2] at h
        rcases List.mem_cons.mp hp with rfl | hp3
        · rw [Option.isNone_iff_eq_none] at h2
          rw [h2] at hp2
          simp at hp2
        · exact buildLines_complete st uc hours names rest lines h p hp3 hp1 hp2
      · rw [if_neg h2] at h
        cases hsq : calculate_sku_quote st code ((alookup uc per).getD 0 * hours) names with
        | error e => rw [hsq] at h; exact absurd h (by simp)
        | ok sq =>
          rw [hsq] at h
          cases hrest : buildLines st uc hours names rest with
          | error e => rw [hrest] at h; simp [Except.map] at h
          | ok tail =>
            rw [hrest] at h
            simp only [Except.map, Except.ok.injEq] at h
            subst h
            rcases List.mem_cons.mp hp with rfl | hp3
            · exact ⟨_, List.mem_cons_self _ _, rfl, rfl, rfl⟩
            · obtain ⟨l, hl, hrest2⟩ :=
                buildLines_complete st uc hours names rest tail hrest p hp3 hp1 hp2
              exact ⟨l, List.mem_cons_of_mem _ hl, hrest2⟩

/-- C3: for every cache state, use case known to the snapshot and positive
hours, a successful use-case quote satisfies: the grand total is the sum of
the breakdown line costs; the breakdown is sorted by line cost descending;
every line comes from a mapping entry with `units_per_hour` read from the
use-case column (0 when absent), `units_total = units_per_hour * hours`
strictly positive, a SKU code present in the SKU set, and cost equal to the
final cost of the SKU quote at quantity `units_total`; and conversely every
mapping entry with positive `units_total` and known SKU code yields a line. -/
theorem use_case_quote_spec (st : DataStoreState) (uc : String) (hours : ℚ)
    (names : Option (List String)) (r : UseCaseQuoteResult)
    (hr : quote_use_case st uc hours names = Except.ok r) :
    r.grand_total_usd = (r.breakdown.map (fun l => l.cost_usd)).sum ∧
    r.breakdown.Pairwise (fun a b => b.cost_usd ≤ a.cost_usd) ∧
    (∀ l ∈ r.breakdown, ∃ per, (l.sku_code, per) ∈ st.use_case_mappings ∧
      l.units_per_hour = (alookup uc per).getD 0 ∧
      l.units_total = l.units_per_hour * hours ∧
      0 < l.units_total ∧
      (alookup l.sku_code st.skus).isSome ∧
      ∃ sq, calculate_sku_quote st l.sku_code l.units_total names = Except.ok sq ∧
        l.cost_usd = sq.final_cost) ∧
    (∀ p ∈ st.use_case_mappings, 0 < (alookup uc p.2).getD 0 * hours →
      (alookup p.1 st.skus).isSome →
      ∃ l ∈ r.breakdown, l.sku_code = p.1 ∧ l.units_per_hour = (alookup uc p.2).getD 0 ∧
        l.units_total = (alookup uc p.2).getD 0 * hours) := by
  rw [quote_use_case] at hr
  by_cases huc : uc ∈ st.use_cases
  · rw [if_pos huc] at hr
    by_cases hh : 0 < hours
    · rw [if_pos hh] at hr
      cases hb : buildLines st uc hours names st.use_case_mappings with
      | error e => rw [hb] at hr; exact absurd hr (by simp)
      | ok lines =>
        rw [hb] at hr
        simp only [Except.ok.injEq] at hr
        subst hr
        refine ⟨?_, sortLinesDesc_sorted lines, ?_, ?_⟩
        · exact (List.Perm.sum_eq ((sortLinesDesc_perm lines).map (fun l => l.cost_usd))).symm
        · intro l hl
          exact buildLines_sound st uc hours names _ lines hb l
            ((sortLinesDesc_perm lines).mem_iff.mp hl)
        · intro p hp h1 h2
          obtain ⟨l, hl, hrest⟩ := buildLines_complete st uc hours names _ lines hb p hp h1 h2
          exact ⟨l, (sortLinesDesc_perm lines).mem_iff.mpr hl, hrest⟩
    · rw [if_neg hh] at hr; exact absurd hr (by simp)
  · rw [if_neg huc] at hr; exact absurd hr (by simp)

/-! ## C10: all-skipped use-case quote never validates uplift names -/

theorem buildLines_all_skipped (st : DataStoreState) (uc : String) (hours : ℚ)
    (names : Option (List String)) :
    ∀ ms : List (String × List (String × ℚ)),
      (∀ p ∈ ms, (alookup uc p.2).getD 0 * hours ≤ 0 ∨ alookup p.1 st.skus = none) →
      buildLines st uc hours names ms = Except.ok []
  | [], _ => rfl
  | (code, per) :: rest, hskip => by
    simp only [buildLines]
    have htail := buildLines_all_skipped st uc hours names rest
      (fun p hp => hskip p (List.mem_cons_of_mem _ hp))
    rcases hskip (code, per) (List.mem_cons_self _ _) with h1 | h2
    · rw [if_pos h1]
      exact htail
    · by_cases h1 : (alookup uc per).getD 0 * hours ≤ 0
      · rw [if_pos h1]
        exact htail
      · rw [if_neg h1, if_pos (by simp [h2])]
        exact htail

/-- C10: in a use-case quote, uplift names are validated only inside the
per-line SKU-quote calls; when every mapping entry is skipped (non-positive
`units_total` or a SKU code absent from the SKU set), the request succeeds
with an empty breakdown and grand total 0 for any `uplift_names` list,
including lists of entirely unknown names. -/
theorem use_case_quote_all_skipped (st : DataStoreState) (uc : String) (hours : ℚ)
    (names : List String) (huc : uc ∈ st.use_cases) (hh : 0 < hours)
    (hskip : ∀ p ∈ st.use_case_mappings,
      (alookup uc p.2).getD 0 * hours ≤ 0 ∨ alookup p.1 st.skus = none) :
    quote_use_case st uc hours (some names) = Except.ok ⟨uc, hours, 0, []⟩ := by
  rw [quote_use_case, if_pos huc, if_pos hh,
    buildLines_all_skipped st uc hours (some names) st.use_case_mappings hskip]
  rfl

/-! ## C8: the use-case mapping parse -/

theorem retainedCodes_cons (row : Row) (rest : List Row) :
    retainedCodes (row :: rest) =
      (if pyStrip ((alookup "SKU Code" row).getD "") ≠ "" then
        [pyStrip ((alookup "SKU Code" row).getD "")] else []) ++ retainedCodes rest := by
  rw [retainedCodes, retainedCodes, List.map_cons]
  by_cases hc : pyStrip ((alookup "SKU Code" row).getD "") ≠ ""
  · rw [List.filter_cons_of_pos (by simpa using hc), if_pos hc]
    rfl
  · rw [List.filter_cons_of_neg (by simpa using hc), if_neg hc]
    rfl

theorem parseFloatE_ok_iff (s : String) (v : ℚ) :
    parseFloatE s = Except.ok v ↔ parse_float s = some v := by
  rw [parseFloatE]
  cases hc : parse_float s with
  | none => simp
  | some q => simp

theorem parseRowEntry_spec (row : Row) :
    ∀ (ucs : List String) (e : List (String × ℚ)),
      parseRowEntry row ucs = Except.ok e →
      e.map Prod.fst = ucs ∧ ∀ p ∈ e, parse_float ((alookup p.1 row).getD "") = some p.2
  | [], e, h => by
    simp only [parseRowEntry, Except.ok.injEq] at h
    subst h
    exact ⟨rfl, fun p hp => absurd hp (List.not_mem_nil p)⟩
  | uc :: rest, e, h => by
    rw [parseRowEntry] at h
    cases hpf : parseFloatE ((alookup uc row).getD "") with
    | error e2 => rw [hpf] at h; exact absurd h (by simp)
    | ok v =>
      rw [hpf] at h
      cases hrec : parseRowEntry row rest with
      | error e2 => rw [hrec] at h; simp [Except.map] at h
      | ok es =>
        rw [hrec] at h
        simp only [Except.map, Except.ok.injEq] at h
        subst h
        obtain ⟨hmap, hall⟩ := parseRowEntry_spec row rest es hrec
        refine ⟨by simp [hmap], ?_⟩
        intro p hp
        rcases List.mem_cons.mp hp with rfl | hp2
        · exact (parseFloatE_ok_iff _ _).mp hpf
        · exact hall p hp2

theorem parseMappingRows_lookup_stable (ucs : List String) :
    ∀ (rows : List Row) (acc m : List (String × List (String × ℚ))),
      parseMappingRows ucs acc rows = Except.ok m →
      ∀ k, k ∉ retainedCodes rows → alookup k m = alookup k acc
  | [], acc, m, h, k, _ => by
    simp only [parseMappingRows, Except.ok.injEq] at h
    subst h
    rfl
  | row :: rest, acc, m, h, k, hk => by
    simp only [parseMappingRows] at h
    rw [retainedCodes_cons] at hk
    by_cases hc : pyStrip ((alookup "SKU Code" row).getD "") = ""
    · rw [if_pos hc] at h
      rw [if_neg (by simp [hc])] at hk
      exact parseMappingRows_lookup_stable ucs rest acc m h k (by simpa using hk)
    · rw [if_neg hc] at h
      rw [if_pos (by simp [hc])] at hk
      simp only [List.singleton_append, List.mem_cons, not_or] at hk
      cases hre : parseRowEntry row ucs with
      | error e2 => rw [hre] at h; exact absurd h (by simp)
      | ok entry =>
        rw [hre] at h
        rw [parseMappingRows_lookup_stable ucs rest _ m h k hk.2,
          alookup_alistInsert_ne k _ hk.1]

theorem parseMappingRows_lookup_retained (ucs : List String) :
    ∀ (rows : List Row) (acc m : List (String × List (String × ℚ))),
      parseMappingRows ucs acc rows = Except.ok m →
      (retainedCodes rows).Nodup →
      ∀ row ∈ rows, pyStrip ((alookup "SKU Code" row).getD "") ≠ "" →
        ∃ e, parseRowEntry row ucs = Except.ok e ∧
          alookup (pyStrip ((alookup "SKU Code" row).getD "")) m = some e
  | [], _, _, _, _, row, hrow, _ => absurd hrow (List.not_mem_nil row)
  | row0 :: rest, acc, m, h, hnd, row, hrow, hcode => by
    simp only [parseMappingRows] at h
    rw [retainedCodes_cons] at hnd
    by_cases hc0 : pyStrip ((alookup "SKU Code" row0).getD "") = ""
    · rw [if_pos hc0] at h
      rw [if_neg (by simp [hc0])] at hnd
      rcases List.mem_cons.mp hrow with rfl | hrow2
      · exact absurd hc0 hcode
      · exact parseMappingRows_lookup_retained ucs rest acc m h (by simpa using hnd)
          row hrow2 hcode
    · rw [if_neg hc0] at h
      rw [if_pos (by simp [hc0])] at hnd
      simp only [List.singleton_append, List.nodup_cons] at hnd
      cases hre : parseRowEntry row0 ucs with
      | error e2 => rw [hre] at h; exact absurd h (by simp)
      | ok entry =>
        rw [hre] at h
        rcases List.mem_cons.mp hrow with rfl | hrow2
        · refine ⟨entry, hre, ?_⟩
          rw [parseMappingRows_lookup_stable ucs rest _ m h _ hnd.1,
            alookup_alistInsert_self]
        · exact parseMappingRows_lookup_retained ucs rest _ m h hnd.2 row hrow2 hcode

theorem parseMappingRows_keys (ucs : List String) :
    ∀ (rows : List Row) (acc m : List (String × List (String × ℚ))),
      parseMappingRows ucs acc rows = Except.ok m →
      ∀ k, (alookup k m).isSome → (alookup k acc).isSome ∨ k ∈ retainedCodes rows
  | [], acc, m, h, k, hk => by
    simp only [parseMappingRows, Except.ok.injEq] at h
    subst h
    exact Or.inl hk
  | row :: rest, acc, m, h, k, hk => by
    simp only [parseMappingRows] at h
    by_cases hc : pyStrip ((alookup "SKU Code" row).getD "") = ""
    · rw [if_pos hc] at h
      rcases parseMappingRows_keys ucs rest acc m h k hk with h1 | h1
      · exact Or.inl h1
      · right
        rw [retainedCodes_cons, if_neg (by simp [hc])]
        simpa using h1
    · rw [if_neg hc] at h
      cases hre : parseRowEntry row ucs with
      | error e2 => rw [hre] at h; exact absurd h (by simp)
      | ok entry =>
        rw [hre] at h
        rcases parseMappingRows_keys ucs rest _ m h k hk with h1 | h1
        · by_cases hkc : k = pyStrip ((alookup "SKU Code" row).getD "")
          · right
            rw [retainedCodes_cons, if_pos (by simp [hc]), List.singleton_append]
            exact List.mem_cons.mpr (Or.inl hkc)
          · rw [alookup_alistInsert_ne k _ hkc] at h1
            exact Or.inl h1
        · right
          rw [retainedCodes_cons, if_pos (by simp [hc]), List.singleton_append]
          exact List.mem_cons.mpr (Or.inr h1)

/-- C8: for every list of header-keyed rows whose retained (nonempty,
stripped) SKU codes are distinct, a successful use-case mapping parse returns
the use-case name list equal to the first row's column headers other than
"SKU Code" in original column order; it has an entry only for retained SKU
codes (rows with an empty SKU Code cell are skipped); each retained row's SKU
code maps to an entry holding, for every use-case name in order, the numeric
coercion of that row's cell (the empty string, hence 0, when absent); and
zero input rows give an empty mapping and an empty use-case list. -/
theorem parse_use_case_mappings_spec (rows : List Row)
    (m : List (String × List (String × ℚ))) (ucs : List String)
    (h : parse_use_case_mappings rows = Except.ok (m, ucs))
    (hnodup : (retainedCodes rows).Nodup) :
    (rows = [] → m = [] ∧ ucs = []) ∧
    (∀ first rest, rows = first :: rest →
      ucs = (first.map Prod.fst).filter (fun c => c ≠ "SKU Code")) ∧
    (∀ k, (alookup k m).isSome → k ∈ retainedCodes rows) ∧
    (∀ row ∈ rows, pyStrip ((alookup "SKU Code" row).getD "") ≠ "" →
      ∃ e, alookup (pyStrip ((alookup "SKU Code" row).getD "")) m = some e ∧
        e.map Prod.fst = ucs ∧
        ∀ p ∈ e, parse_float ((alookup p.1 row).getD "") = some p.2) := by
  cases rows with
  | nil =>
    simp only [parse_use_case_mappings, Except.ok.injEq, Prod.mk.injEq] at h
    obtain ⟨h1, h2⟩ := h
    subst h1
    subst h2
    refine ⟨fun _ => ⟨rfl, rfl⟩, ?_, ?_, ?_⟩
    · intro first rest hcontra
      cases hcontra
    · intro k hk
      simp [alookup] at hk
    · intro row hrow
      cases hrow
  | cons first rest =>
    simp only [parse_use_case_mappings] at h
    cases hp : parseMappingRows ((first.map Prod.fst).filter (fun c => c ≠ "SKU Code")) []
        (first :: rest) with
    | error e => rw [hp] at h; simp [Except.map] at h
    | ok m0 =>
      rw [hp] at h
      simp only [Except.map, Except.ok.injEq, Prod.mk.injEq] at h
      obtain ⟨hm, hucs⟩ := h
      subst hm
      subst hucs
      refine ⟨?_, ?_, ?_, ?_⟩
      · intro hcontra
        cases hcontra
      · intro f2 r2 heq
        injection heq with h1 _
        subst h1
        rfl
      · intro k hk
        rcases parseMappingRows_keys _ _ [] _ hp k hk with h1 | h1
        · simp [alookup] at h1
        · exact h1
      · intro row hrow hcode
        obtain ⟨e, hre, hl⟩ :=
          parseMappingRows_lookup_retained _ _ [] _ hp hnodup row hrow hcode
        obtain ⟨hmap, hall⟩ := parseRowEntry_spec row _ e hre
        exact ⟨e, hl, hmap, hall⟩

/-! ## Concrete fixtures and witnesses

The fixtures reuse the repository's own example data: the spec's discount
table `[(10, 0.05), (50, 0.10), (100, 0.08)]`, the SKU-quote example
(`base_unit_price = 2.0`, `unit = 1.0`, `quantity = 30`, discount `0.1`,
uplift `0.2`), and the end-to-end use-case test (`SKU-A`/`SKU-B`). -/

def stW1 : DataStoreState :=
  ⟨[("SKU-A", ⟨"SKU-A", "A", "Units", 2, 1⟩)],
    [⟨10, 1/20⟩, ⟨50, 1/10⟩, ⟨100, 2/25⟩], [], [], [], none⟩

def qW1 : SkuQuoteResult :=
  ⟨⟨"SKU-A", "A", "Units", 2, 1⟩, 60, 60, 120, 1/10, 108, 0, 108, []⟩

theorem calculate_stW1_eval : calculate_sku_quote stW1 "SKU-A" 60 none = Except.ok qW1 := by
  norm_num [calculate_sku_quote, alookup, resolve_uplifts, selectDiscount, stW1, qW1,
    SkuQuoteResult.mk.injEq]

theorem sku_quote_discount_selection_witness :
    ∃ q, calculate_sku_quote stW1 "SKU-A" 60 none = Except.ok q ∧ q.discount_decimal = 1/10 := by
  have hspec := sku_quote_discount_selection stW1 "SKU-A" 60 none
    (by norm_num [stW1, List.pairwise_cons])
    (by intro d hd; fin_cases hd <;> norm_num [stW1])
    ⟨"SKU-A", "A", "Units", 2, 1⟩ rfl qW1 calculate_stW1_eval
  refine ⟨qW1, calculate_stW1_eval, ?_⟩
  rw [hspec]
  norm_num [stW1, specSelectedDiscount, List.filter_cons, List.filter_nil]

def stW2 : DataStoreState :=
  ⟨[("SKU-A", ⟨"SKU-A", "A", "Tokens", 2, 1⟩)], [⟨10, 1/10⟩],
    [("Default", ⟨"Default", 1/5, true⟩)], [], [], none⟩

def qW2 : SkuQuoteResult :=
  ⟨⟨"SKU-A", "A", "Tokens", 2, 1⟩, 30, 30, 60, 1/10, 54, 1/5, 324/5, [⟨"Default", 1/5, true⟩]⟩

theorem sku_quote_arithmetic_witness :
    ∃ q, calculate_sku_quote stW2 "SKU-A" 30 none = Except.ok q ∧
      q.relative_units = 30 ∧ q.base_cost = 60 ∧ q.discounted_cost = 54 ∧
      q.uplift_decimal = 1/5 ∧ q.final_cost = 324/5 := by
  obtain ⟨q, hq, h1, h2, h3, h4, h5⟩ :=
    sku_quote_arithmetic stW2 "SKU-A" 30 none ⟨"SKU-A", "A", "Tokens", 2, 1⟩ rfl
      (by norm_num) [⟨"Default", 1/5, true⟩] rfl
  have hval : calculate_sku_quote stW2 "SKU-A" 30 none = Except.ok qW2 := by
    norm_num [calculate_sku_quote, alookup, resolve_uplifts, selectDiscount, stW2, qW2,
      SkuQuoteResult.mk.injEq]
  rw [hq] at hval
  have hq2 : q = qW2 := Except.ok.inj hval
  subst hq2
  exact ⟨qW2, hq, by norm_num [qW2], by norm_num [qW2], by norm_num [qW2], by norm_num [qW2],
    by norm_num [qW2]⟩

def stW3 : DataStoreState :=
  ⟨[("SKU-A", ⟨"SKU-A", "A", "Tokens", 2, 1⟩), ("SKU-B", ⟨"SKU-B", "B", "Jobs", 1, 2⟩)],
    [⟨10, 1/10⟩], [("Default", ⟨"Default", 1/5, true⟩)],
    [("SKU-A", [("UC", 3)]), ("SKU-B", [("UC", 1)])], ["UC"], none⟩

def rW3 : UseCaseQuoteResult :=
  ⟨"UC", 10, 59,
    [⟨"SKU-A", "A", "Tokens", 3, 30, 54⟩, ⟨"SKU-B", "B", "Jobs", 1, 10, 5⟩]⟩

theorem quote_stW3_eval : quote_use_case stW3 "UC" 10 (some []) = Except.ok rW3 := by
  norm_num +decide [quote_use_case, buildLines, calculate_sku_quote, resolve_uplifts,
    selectDiscount, alookup, sortLinesDesc, insertLineDesc, Except.map, stW3, rW3,
    UseCaseQuoteResult.mk.injEq, BreakdownLine.mk.injEq]

theorem use_case_quote_spec_witness :
    ∃ r, quote_use_case stW3 "UC" 10 (some []) = Except.ok r ∧
      r.grand_total_usd = 59 ∧
      r.breakdown.map (fun l => l.cost_usd) = [54, 5] ∧
      r.grand_total_usd = (r.breakdown.map (fun l => l.cost_usd)).sum ∧
      r.breakdown.Pairwise (fun a b => b.cost_usd ≤ a.cost_usd) := by
  obtain ⟨h1, h2, _, _⟩ := use_case_quote_spec stW3 "UC" 10 (some []) rW3 quote_stW3_eval
  exact ⟨rW3, quote_stW3_eval, by norm_num [rW3], by norm_num [rW3], h1, h2⟩

def stW4 : DataStoreState :=
  ⟨[], [], [("A", ⟨"A", 1, true⟩), ("B", ⟨"B", 2, false⟩)], [], [], none⟩

theorem resolve_uplifts_spec_witness :
    (∃ miss, resolve_uplifts stW4 (some ["A", "X"]) =
        Except.error (QuoteError.unknownUplifts miss) ∧ miss ≠ [] ∧
        ∀ n, n ∈ miss ↔ (n ∈ (["A", "X"] : List String) ∧ alookup n stW4.uplifts = none)) ∧
    (∃ us, resolve_uplifts stW4 (some ["B", "B"]) = Except.ok us ∧
      us.length = 2 ∧
      ∀ (i : Nat) (hi : i < (["B", "B"] : List String).length) (hj : i < us.length),
        alookup ((["B", "B"] : List String).get ⟨i, hi⟩) stW4.uplifts = some (us.get ⟨i, hj⟩)) := by
  constructor
  · exact (resolve_uplifts_spec stW4 ["A", "X"]).2.1 ⟨"X", by simp, rfl⟩
  · obtain ⟨us, h1, h2, h3⟩ := (resolve_uplifts_spec stW4 ["B", "B"]).2.2
      (by intro n hn; fin_cases hn <;> rfl)
    exact ⟨us, h1, by simpa using h2, h3⟩

def stNonEmpty : DataStoreState :=
  ⟨[("SKU-A", ⟨"SKU-A", "A", "Units", 2, 1⟩)], [⟨10, 1/10⟩], [], [], ["UC"], some 3⟩

def envBad : RefreshEnv := ⟨none, some "v", some "u", some "m", fun _ => some [], 7⟩

def envGood : RefreshEnv := ⟨some "p", some "v", some "u", some "m", fun _ => some [], 5⟩

theorem refresh_once_atomicity_witness :
    (refresh_once envBad stNonEmpty).1 = stNonEmpty ∧
    (refresh_once envGood stNonEmpty).1.last_refresh_utc = some 5 := by
  constructor
  · exact (refresh_once_atomicity envBad stNonEmpty).1 (by rfl)
  · obtain ⟨d, hd, hst⟩ := (refresh_once_atomicity envGood stNonEmpty).2 (by rfl)
    rw [hst]
    rfl

def stEmpty : DataStoreState := ⟨[], [], [], [], [], none⟩

def stFresh : DataStoreState := ⟨[], [], [], [], [], some 0⟩

def envW6 : RefreshEnv := ⟨some "p", some "v", some "u", some "m", fun _ => some [], 100⟩

theorem ensure_fresh_policy_witness :
    ensure_fresh envW6 stFresh = (stFresh, none) ∧
    ensure_fresh envW6 stEmpty = refresh_once envW6 stEmpty := by
  constructor
  · refine (ensure_fresh_policy envW6 stFresh).2 ?_
    rintro (h | ⟨t, ht, he⟩)
    · simp [stFresh] at h
    · simp only [stFresh] at ht
      rw [Option.some.injEq] at ht
      subst ht
      norm_num [envW6] at he
  · exact (ensure_fresh_policy envW6 stEmpty).1 (Or.inl rfl)

def rowsW8 : List Row := [[("SKU Code", "A"), ("UC", "")]]

theorem parse_use_case_mappings_spec_witness :
    (["UC"] : List String) =
      ((([("SKU Code", "A"), ("UC", "")] : Row).map Prod.fst).filter
        (fun c => c ≠ "SKU Code")) ∧
    ∃ e, alookup "A" [("A", [("UC", (0 : ℚ))])] = some e ∧
      e.map Prod.fst = ["UC"] ∧
      ∀ p ∈ e, parse_float ((alookup p.1 ([("SKU Code", "A"), ("UC", "")] : Row)).getD "")
        = some p.2 := by
  have h := parse_use_case_mappings_spec rowsW8 [("A", [("UC", (0 : ℚ))])] ["UC"] rfl (by decide)
  constructor
  · exact h.2.1 [("SKU Code", "A"), ("UC", "")] [] rfl
  · exact h.2.2.2 [("SKU Code", "A"), ("UC", "")] (by simp [rowsW8]) (by decide)

def stW10 : DataStoreState := ⟨[], [], [], [("GONE", [("UC", 5)])], ["UC"], none⟩

theorem use_case_quote_all_skipped_witness :
    quote_use_case stW10 "UC" 10 (some ["NotAnUplift"]) = Except.ok ⟨"UC", 10, 0, []⟩ := by
  refine use_case_quote_all_skipped stW10 "UC" 10 ["NotAnUplift"] (by simp [stW10])
    (by norm_num) ?_
  intro p hp
  simp only [stW10, List.mem_singleton] at hp
  subst hp
  right
  rfl

end Pricing
